import Mathlib

/-!
Verification of the distributed 3D extrema pipeline (CS633 assignment repository).

The repository contains four C source files, three independent takes on the
same pipeline:
  * `sainikhil_code/src.c`   — balanced partitioner `get_range`, strict
    6-neighbour classifier over a halo array, MPI reductions;
  * `Venkatesh/1.c`          — tail-heavy partitioner, `is_min`/`is_max`
    with shadowed extent parameters, timing max-reductions;
  * `Pankaj/pankaj_code.c`   — divisible-grid distributor and interior-only
    classifier;
  * `Pankaj/pankaj_code2.c`  — `checkLocalMinima`/`checkLocalMaxima` and a
    per-timestep scan.

C doubles/floats are modelled as rationals (`ℚ`); C pointers into arrays of
doubles are modelled as total functions `ℤ → ℚ` (an access the C program
keeps in bounds reads the same value in the model); C `int` arithmetic is
modelled on `ℤ`/`ℕ` (all quantities in scope stay far below 2^31).
-/

/-- The value of the C constant `DBL_MAX` (largest finite IEEE-754 double,
exactly `2 ^ 1024 - 2 ^ 971`, written as a numeral so the kernel can
evaluate comparisons), used by `1.c` and the pankaj codes as the
ghost-cell / running-minimum initialisation value. -/
def dblMax : ℚ := 179769313486231570814527423731704356798070567525844996598917476803157260780028538760589558632766878171540458953514382464234321326889464182768467546703537516986049910576551282076245490090389328944075868508455133942304583236903222948165808559332123348274797826204144723168738177180919299881250404026184124858368

/-- The value of the C constant `FLT_MAX` (largest finite IEEE-754 float,
exactly `2 ^ 128 - 2 ^ 104`), used by `src.c` as the halo initialisation
value. -/
def fltMax : ℚ := 340282346638528859811704183484516925440

/-- The table of the six face neighbours of `(x, y, z)`, in the order it is
written in `src.c` (lines 243–250), `pankaj_code2.c` (the six sequential
checks) and `1.c` (the `nbrs` table). -/
def sixNeighbors (x y z : ℤ) : List (ℤ × ℤ × ℤ) :=
  [(x - 1, y, z), (x + 1, y, z), (x, y - 1, z),
   (x, y + 1, z), (x, y, z - 1), (x, y, z + 1)]

/-- Semantics of `MPI_Reduce(..., MPI_MAX, root, ...)` over one scalar per
rank: the root receives the maximum of the per-rank contributions (rank 0's
value folded with `max` over the remaining ranks). -/
def mpiReduceMax : List ℚ → ℚ
  | [] => 0
  | x :: xs => xs.foldl max x

namespace Sainikhil

/-- From `src.c`, `get_range`: the loop
`for (i = 0; i < rank; i++) start += base + (i < remainder ? 1 : 0);`
with `base = size / total` and `remainder = size % total`.  `rangeStart
rank total size` is the value of `start` after the loop. -/
def rangeStart (rank total size : ℕ) : ℕ :=
  (List.range rank).foldl
    (fun s i => s + (size / total + if i < size % total then 1 else 0)) 0

/-- From `src.c`, `get_range`: `local_size = base + (rank < remainder ? 1 : 0)`. -/
def rangeSize (rank total size : ℕ) : ℕ :=
  size / total + if rank < size % total then 1 else 0

/-- A `Range` as returned by `get_range` in `src.c`: `{start, end, size}`
with an inclusive `end = start + local_size - 1` (an `int` in C, hence `ℤ`
here so that a zero-size range keeps its `end = start - 1`). -/
structure Range where
  start : ℤ
  stop : ℤ
  size : ℤ
  deriving DecidableEq, Repr

/-- From `src.c`, `get_range(rank, total, size)`. -/
def get_range (rank total size : ℕ) : Range :=
  ⟨(rangeStart rank total size : ℤ),
   (rangeStart rank total size : ℤ) + (rangeSize rank total size : ℤ) - 1,
   (rangeSize rank total size : ℤ)⟩

/-- The skip guard of `src.c` lines 258–262: a neighbour at halo coordinate
`n` is skipped when it lies outside the halo array (`local + 2` per axis) or
when its global position `range.start + n - 1` lies outside the global
domain.  `xl yl zl` are the local sizes, `xs ys zs` the range starts. -/
def skipNeighbor (xl yl zl NX NY NZ xs ys zs : ℤ) (n : ℤ × ℤ × ℤ) : Bool :=
  decide (n.1 < 0) || decide (xl + 2 ≤ n.1) ||
  decide (n.2.1 < 0) || decide (yl + 2 ≤ n.2.1) ||
  decide (n.2.2 < 0) || decide (zl + 2 ≤ n.2.2) ||
  decide (xs + n.1 - 1 < 0) || decide (NX ≤ xs + n.1 - 1) ||
  decide (ys + n.2.1 - 1 < 0) || decide (NY ≤ ys + n.2.1 - 1) ||
  decide (zs + n.2.2 - 1 < 0) || decide (NZ ≤ zs + n.2.2 - 1)

/-- Spec-side reading of the same guard: the neighbour's global position
`(xs + n.1 - 1, ys + n.2.1 - 1, zs + n.2.2 - 1)` lies inside the global
domain (`"present"` in the spec's terminology). -/
def globalInDomain (NX NY NZ xs ys zs : ℤ) (n : ℤ × ℤ × ℤ) : Prop :=
  0 ≤ xs + n.1 - 1 ∧ xs + n.1 - 1 < NX ∧
  0 ≤ ys + n.2.1 - 1 ∧ ys + n.2.1 - 1 < NY ∧
  0 ≤ zs + n.2.2 - 1 ∧ zs + n.2.2 - 1 < NZ

/-- From the classification loop of `src.c` (lines 236–275): the final value
of the `is_min` flag for the owned point at halo coordinate `(i, j, k)` —
the flag survives iff every non-skipped neighbour satisfies
`¬(nval <= val)`. -/
def isMinAt (halo : ℤ → ℤ → ℤ → ℚ) (xl yl zl NX NY NZ xs ys zs i j k : ℤ) :
    Bool :=
  (sixNeighbors i j k).all fun n =>
    skipNeighbor xl yl zl NX NY NZ xs ys zs n ||
    decide (halo i j k < halo n.1 n.2.1 n.2.2)

/-- From the classification loop of `src.c`: the final value of the `is_max`
flag — it survives iff every non-skipped neighbour satisfies
`¬(nval >= val)`. -/
def isMaxAt (halo : ℤ → ℤ → ℤ → ℚ) (xl yl zl NX NY NZ xs ys zs i j k : ℤ) :
    Bool :=
  (sixNeighbors i j k).all fun n =>
    skipNeighbor xl yl zl NX NY NZ xs ys zs n ||
    decide (halo n.1 n.2.1 n.2.2 < halo i j k)

/-- The owned halo coordinates scanned by the classification loop of
`src.c`: `(i, j, k)` with `1 ≤ i ≤ x_local`, `1 ≤ j ≤ y_local`,
`1 ≤ k ≤ z_local`, in loop order (`k` innermost). -/
def ownedTriples (xl yl zl : ℕ) : List (ℤ × ℤ × ℤ) :=
  (List.range xl).flatMap fun a =>
    (List.range yl).flatMap fun b =>
      (List.range zl).map fun c => ((a : ℤ) + 1, (b : ℤ) + 1, (c : ℤ) + 1)

/-- From `src.c` lines 236–275: the value of `cnt_min` after the scan. -/
def cntMin (halo : ℤ → ℤ → ℤ → ℚ) (xl yl zl : ℕ) (NX NY NZ xs ys zs : ℤ) :
    ℕ :=
  (ownedTriples xl yl zl).countP fun p =>
    isMinAt halo (xl : ℤ) (yl : ℤ) (zl : ℤ) NX NY NZ xs ys zs p.1 p.2.1 p.2.2

/-- From `src.c` lines 236–275: the value of `cnt_max` after the scan. -/
def cntMax (halo : ℤ → ℤ → ℤ → ℚ) (xl yl zl : ℕ) (NX NY NZ xs ys zs : ℤ) :
    ℕ :=
  (ownedTriples xl yl zl).countP fun p =>
    isMaxAt halo (xl : ℤ) (yl : ℤ) (zl : ℤ) NX NY NZ xs ys zs p.1 p.2.1 p.2.2

/-- From `src.c` lines 297–298 and 326: rank 0 prints
`0.0, main_time, main_time` from its own clock; no reduction of timings
occurs anywhere in `src.c`.  The argument is the per-rank list of
`main_time` measurements (rank 0 first). -/
def reportedTimings (mainTimes : List ℚ) : ℚ × ℚ × ℚ :=
  (0, mainTimes.headD 0, mainTimes.headD 0)

/-- From `src.c` lines 48–52 (the identical check appears in all four
files): the only configuration validation performed before the run
proceeds — an error is signalled iff `PX * PY * PZ != size`. -/
def configError (PX PY PZ size : ℤ) : Bool := decide (PX * PY * PZ ≠ size)

end Sainikhil

namespace Venkatesh

/-- From `1.c`: `idx3d(x, y, z, nx, ny) = (z * ny + y) * nx + x`. -/
def idx3d (x y z nx ny : ℤ) : ℤ := (z * ny + y) * nx + x

/-- From `1.c`, `is_min` — faithfully including the variable shadowing: the
loop-local declarations `int nx = x + nbrs[i][0]; int ny = ...; int nz = ...`
shadow the extent parameters from that point on, so the bounds guard reads
`nx < 0 || nx >= nx || ny < 0 || ny >= ny || nz < 0 || nz >= nz` on the
freshly computed neighbour coordinates, and the neighbour index is
`idx3d(nx, ny, nz, nx, ny)` on them as well; only the centre index (computed
before the loop) uses the real extents. -/
def is_min (data : ℤ → ℚ) (x y z nx ny nz t nt : ℤ) : Bool :=
  let val := data (idx3d x y z nx ny * nt + t)
  (sixNeighbors x y z).all fun n =>
    (decide (n.1 < 0) || decide (n.1 ≥ n.1) ||
     decide (n.2.1 < 0) || decide (n.2.1 ≥ n.2.1) ||
     decide (n.2.2 < 0) || decide (n.2.2 ≥ n.2.2)) ||
    !(decide (data (idx3d n.1 n.2.1 n.2.2 n.1 n.2.1 * nt + t) < val))

/-- From `1.c`, `is_max` — same shadowing, with `>` in the comparison. -/
def is_max (data : ℤ → ℚ) (x y z nx ny nz t nt : ℤ) : Bool :=
  let val := data (idx3d x y z nx ny * nt + t)
  (sixNeighbors x y z).all fun n =>
    (decide (n.1 < 0) || decide (n.1 ≥ n.1) ||
     decide (n.2.1 < 0) || decide (n.2.1 ≥ n.2.1) ||
     decide (n.2.2 < 0) || decide (n.2.2 ≥ n.2.2)) ||
    !(decide (val < data (idx3d n.1 n.2.1 n.2.2 n.1 n.2.1 * nt + t)))

/-- The state of `local_data` in `1.c` after the distribution phase, as a
function of ghost coordinates and timestep (coordinating worker path, lines
169–197; the non-root path lines 246–257 produces the same owned box):
every entry is initialised to `DBL_MAX`, then the owned box
`1 ≤ g ≤ local_n` per axis is overwritten from `full_data`.  No later write
touches the ghost cells: the halo-exchange phase of `1.c` is only a comment
(lines 262–263). -/
def localDataAfterDist (full : ℤ → ℚ) (nx ny nt sx sy sz lnx lny lnz : ℤ)
    (gx gy gz t : ℤ) : ℚ :=
  if 1 ≤ gx ∧ gx ≤ lnx ∧ 1 ≤ gy ∧ gy ≤ lny ∧ 1 ≤ gz ∧ gz ≤ lnz then
    full (idx3d (sx + (gx - 1)) (sy + (gy - 1)) (sz + (gz - 1)) nx ny * nt + t)
  else dblMax

/-- From `1.c` lines 333–336: the three reported timings, each an
`MPI_Reduce` with `MPI_MAX` over the per-rank measurements. -/
def reportedTimings (readTimes computeTimes totalTimes : List ℚ) :
    ℚ × ℚ × ℚ :=
  (mpiReduceMax readTimes, mpiReduceMax computeTimes, mpiReduceMax totalTimes)

end Venkatesh

namespace Pankaj

/-- From `pankaj_code.c` lines 147–157: the packing of `tempBuffer` for the
worker whose sub-domain starts at `(psx, psy, psz)` with sizes
`(sdx, sdy, sdz)`: `tempBuffer[bufIdx++] =
globalData[(z*nX*nY + y*nX + x)*timeSteps + t]`, loops `z`, `y`, `x`, `t`
with `t` innermost. -/
def packBlock (globalData : ℤ → ℚ) (nX nY psx psy psz : ℤ)
    (sdx sdy sdz ts : ℕ) : List ℚ :=
  (List.range sdz).flatMap fun z =>
    (List.range sdy).flatMap fun y =>
      (List.range sdx).flatMap fun x =>
        (List.range ts).map fun t =>
          globalData (((psz + (z : ℤ)) * nX * nY + (psy + (y : ℤ)) * nX +
            (psx + (x : ℤ))) * (ts : ℤ) + (t : ℤ))

/-- From `pankaj_code.c` line 159 (and the matching receive, line 164): the
count argument passed to `MPI_Send`/`MPI_Recv` is `subDomainSize`
(`= sdx * sdy * sdz`), although `tempBuffer` was filled with
`subDomainSize * timeSteps` doubles. -/
def sendCount (sdx sdy sdz : ℕ) : ℕ := sdx * sdy * sdz

/-- The non-root worker's `localData` after its single `MPI_Recv`
(`pankaj_code.c` line 164): the first `sendCount` entries hold the start of
the packed buffer, the rest keep the uninitialised malloc contents `u`. -/
def receivedLocalData (globalData : ℤ → ℚ) (nX nY psx psy psz : ℤ)
    (sdx sdy sdz ts : ℕ) (u : ℕ → ℚ) : ℕ → ℚ :=
  fun i => if i < sendCount sdx sdy sdz then
    (packBlock globalData nX nY psx psy psz sdx sdy sdz ts).getD i 0
  else u i

/-- From `pankaj_code.c` lines 187–206: the running sub-domain minimum for
timestep `t`, updated with `value = localData[localIdx + t]` where
`localIdx = (z * subDomainSizeY + y) * subDomainSizeX + x` — no
`* timeSteps` stride on the point index. -/
def subDomainMinAt (localData : ℕ → ℚ) (sdx sdy sdz t : ℕ) : ℚ :=
  ((List.range sdz).flatMap fun z =>
    (List.range sdy).flatMap fun y =>
      (List.range sdx).map fun x => (z * sdy + y) * sdx + x).foldl
    (fun m idx => min m (localData (idx + t))) dblMax

/-- Modelled from the spec: the minimum of `value(p, t)` over every point of
the block, with the layout the distributor actually wrote
(`localData[pointIndex * timeSteps + t]`). -/
def specMinOverPointsAt (localData : ℕ → ℚ) (sdx sdy sdz ts t : ℕ) : ℚ :=
  ((List.range sdz).flatMap fun z =>
    (List.range sdy).flatMap fun y =>
      (List.range sdx).map fun x => (z * sdy + y) * sdx + x).foldl
    (fun m idx => min m (localData (idx * ts + t))) dblMax

end Pankaj

namespace Pankaj2

/-- From `pankaj_code2.c`, `threeD_To_oneD(x, y, z, width, height, depth)`:
`((z * height + y) * width + x)` (the `depth` parameter is unused, as in the
source). -/
def threeD_To_oneD (x y z width height depth : ℤ) : ℤ :=
  (z * height + y) * width + x

/-- From `pankaj_code2.c`, `checkLocalMinima`: `isMinima` starts `true` and
each of the six guarded checks clears it when the guard holds and the
neighbour's value is strictly below `val`; the result is the conjunction of
the six negations. -/
def checkLocalMinima (data : ℤ → ℚ) (x y z width height depth : ℤ) : Bool :=
  let idx := threeD_To_oneD x y z width height depth
  let val := data idx
  (!(decide (0 < x) && decide (data (idx - 1) < val))) &&
  (!(decide (x < width - 1) && decide (data (idx + 1) < val))) &&
  (!(decide (0 < y) && decide (data (idx - width) < val))) &&
  (!(decide (y < height - 1) && decide (data (idx + width) < val))) &&
  (!(decide (0 < z) && decide (data (idx - height * width) < val))) &&
  (!(decide (z < depth - 1) && decide (data (idx + height * width) < val)))

/-- From `pankaj_code2.c`, `checkLocalMaxima`: as `checkLocalMinima` with
`>` in place of `<`. -/
def checkLocalMaxima (data : ℤ → ℚ) (x y z width height depth : ℤ) : Bool :=
  let idx := threeD_To_oneD x y z width height depth
  let val := data idx
  (!(decide (0 < x) && decide (val < data (idx - 1)))) &&
  (!(decide (x < width - 1) && decide (val < data (idx + 1)))) &&
  (!(decide (0 < y) && decide (val < data (idx - width)))) &&
  (!(decide (y < height - 1) && decide (val < data (idx + width)))) &&
  (!(decide (0 < z) && decide (val < data (idx - height * width)))) &&
  (!(decide (z < depth - 1) && decide (val < data (idx + height * width))))

/-- Spec-side predicate: the neighbour coordinate lies inside the local
array handed to `checkLocalMinima`/`checkLocalMaxima`. -/
def inLocalBounds (width height depth : ℤ) (n : ℤ × ℤ × ℤ) : Prop :=
  0 ≤ n.1 ∧ n.1 < width ∧ 0 ≤ n.2.1 ∧ n.2.1 < height ∧
  0 ≤ n.2.2 ∧ n.2.2 < depth

/-- From the per-timestep loop of `pankaj_code2.c` `main` (lines 265–289):
for timestep `t`, scan the local array over the owned sub-box (the loop
body guarded by the `startX - tempStartX ≤ x ≤ endX - tempStartX` …
condition) and produce `(localMinimaCount_at_t, localMaximaCount_at_t,
subDomainMinValues[t], subDomainMaxValues[t])`.  The parameters mirror the
C variables `tempStart*`, `tempEnd*`, `start*`, `end*`; `t` is the loop's
timestep variable. -/
def scanAtTimestep (data : ℤ → ℚ)
    (tsx tsy tsz tex tey tez sx sy sz ex ey ez : ℤ) (t : ℕ) :
    ℕ × ℕ × ℚ × ℚ :=
  let width := tex + 1 - tsx
  let height := tey + 1 - tsy
  let depth := tez + 1 - tsz
  let triples :=
    (List.range (tez - tsz + 1).toNat).flatMap fun z =>
      (List.range (tey - tsy + 1).toNat).flatMap fun y =>
        (List.range (tex - tsx + 1).toNat).map fun x =>
          ((x : ℤ), (y : ℤ), (z : ℤ))
  let owned := triples.filter fun p =>
    decide (sx - tsx ≤ p.1) && decide (p.1 ≤ ex - tsx) &&
    decide (sy - tsy ≤ p.2.1) && decide (p.2.1 ≤ ey - tsy) &&
    decide (sz - tsz ≤ p.2.2) && decide (p.2.2 ≤ ez - tsz)
  (owned.countP fun p => checkLocalMinima data p.1 p.2.1 p.2.2 width height depth,
   owned.countP fun p => checkLocalMaxima data p.1 p.2.1 p.2.2 width height depth,
   owned.foldl (fun m p =>
     min m (data (threeD_To_oneD p.1 p.2.1 p.2.2 width height depth))) dblMax,
   owned.foldl (fun m p =>
     max m (data (threeD_To_oneD p.1 p.2.1 p.2.2 width height depth))) (-dblMax))

end Pankaj2

namespace Sainikhil

theorem rangeStart_zero (total size : ℕ) : rangeStart 0 total size = 0 := rfl

theorem rangeStart_succ (rank total size : ℕ) :
    rangeStart (rank + 1) total size =
      rangeStart rank total size + rangeSize rank total size := by
  unfold rangeStart rangeSize
  rw [List.range_succ, List.foldl_append]
  rfl

theorem rangeStart_closed (rank total size : ℕ) :
    rangeStart rank total size =
      rank * (size / total) + min rank (size % total) := by
  induction rank with
  | zero => simp [rangeStart_zero]
  | succ n ih =>
      rw [rangeStart_succ, ih]
      unfold rangeSize
      rcases lt_or_le n (size % total) with h | h
      · rw [if_pos h]
        have h1 : min n (size % total) = n := min_eq_left (Nat.le_of_lt h)
        have h2 : min (n + 1) (size % total) = n + 1 :=
          min_eq_left (Nat.succ_le_of_lt h)
        rw [h1, h2]; ring
      · rw [if_neg (not_lt.mpr h)]
        have h1 : min n (size % total) = size % total := min_eq_right h
        have h2 : min (n + 1) (size % total) = size % total :=
          min_eq_right (le_trans h (Nat.le_succ n))
        rw [h1, h2]; ring

theorem rangeStart_total (total size : ℕ) (htotal : 0 < total) :
    rangeStart total total size = size := by
  rw [rangeStart_closed]
  have hmod : size % total < total := Nat.mod_lt _ htotal
  rw [min_eq_right (Nat.le_of_lt hmod)]
  rw [Nat.mul_comm]
  exact Nat.div_add_mod' size total

theorem rangeStart_mono {i j : ℕ} (total size : ℕ) (h : i ≤ j) :
    rangeStart i total size ≤ rangeStart j total size := by
  induction j with
  | zero => simp_all
  | succ n ih =>
      rcases Nat.lt_or_ge i (n + 1) with h' | h'
      · have := ih (Nat.lt_succ_iff.mp h')
        rw [rangeStart_succ]
        omega
      · have : i = n + 1 := le_antisymm h h'
        simp [this]

theorem rangeStart_locate (total size : ℕ) :
    ∀ k x : ℕ, x < rangeStart k total size →
      ∃ i, i < k ∧ rangeStart i total size ≤ x ∧
        x < rangeStart (i + 1) total size := by
  intro k
  induction k with
  | zero => intro x hx; simp [rangeStart_zero] at hx
  | succ n ih =>
      intro x hx
      rcases Nat.lt_or_ge x (rangeStart n total size) with h | h
      · obtain ⟨i, hi, h1, h2⟩ := ih x h
        exact ⟨i, Nat.lt_succ_of_lt hi, h1, h2⟩
      · exact ⟨n, Nat.lt_succ_self n, h, hx⟩

theorem rangeSize_pos (rank total size : ℕ) (htotal : 0 < total)
    (hsize : total ≤ size) : 1 ≤ rangeSize rank total size := by
  unfold rangeSize
  have : 1 ≤ size / total := (Nat.one_le_div_iff htotal).mpr hsize
  omega

theorem skip_or_iff (xl yl zl NX NY NZ xs ys zs : ℤ) (n : ℤ × ℤ × ℤ)
    (P : Prop) [Decidable P]
    (h1 : 0 ≤ n.1) (h2 : n.1 < xl + 2) (h3 : 0 ≤ n.2.1) (h4 : n.2.1 < yl + 2)
    (h5 : 0 ≤ n.2.2) (h6 : n.2.2 < zl + 2) :
    (skipNeighbor xl yl zl NX NY NZ xs ys zs n || decide P) = true ↔
      (globalInDomain NX NY NZ xs ys zs n → P) := by
  unfold skipNeighbor globalInDomain
  simp only [Bool.or_eq_true, decide_eq_true_iff]
  constructor
  · rintro (hskip | hP)
    · intro hpres; exfalso; omega
    · exact fun _ => hP
  · intro himp
    by_cases hpres : globalInDomain NX NY NZ xs ys zs n
    · exact Or.inr (himp hpres)
    · left
      unfold globalInDomain at hpres
      omega

theorem mem_sixNeighbors_bounds (xl yl zl i j k : ℤ)
    (hi1 : 1 ≤ i) (hi2 : i ≤ xl) (hj1 : 1 ≤ j) (hj2 : j ≤ yl)
    (hk1 : 1 ≤ k) (hk2 : k ≤ zl) :
    ∀ n ∈ sixNeighbors i j k,
      0 ≤ n.1 ∧ n.1 < xl + 2 ∧ 0 ≤ n.2.1 ∧ n.2.1 < yl + 2 ∧
      0 ≤ n.2.2 ∧ n.2.2 < zl + 2 := by
  intro n hn
  simp only [sixNeighbors, List.mem_cons, List.not_mem_nil, or_false] at hn
  rcases hn with rfl | rfl | rfl | rfl | rfl | rfl <;> dsimp only <;> omega

theorem isMinAt_iff (halo : ℤ → ℤ → ℤ → ℚ) (xl yl zl NX NY NZ xs ys zs i j k : ℤ)
    (hi1 : 1 ≤ i) (hi2 : i ≤ xl) (hj1 : 1 ≤ j) (hj2 : j ≤ yl)
    (hk1 : 1 ≤ k) (hk2 : k ≤ zl) :
    isMinAt halo xl yl zl NX NY NZ xs ys zs i j k = true ↔
      ∀ n ∈ sixNeighbors i j k, globalInDomain NX NY NZ xs ys zs n →
        halo i j k < halo n.1 n.2.1 n.2.2 := by
  have hb := mem_sixNeighbors_bounds xl yl zl i j k hi1 hi2 hj1 hj2 hk1 hk2
  unfold isMinAt
  rw [List.all_eq_true]
  constructor
  · intro H n hn
    obtain ⟨b1, b2, b3, b4, b5, b6⟩ := hb n hn
    exact (skip_or_iff xl yl zl NX NY NZ xs ys zs n _ b1 b2 b3 b4 b5 b6).mp (H n hn)
  · intro H n hn
    obtain ⟨b1, b2, b3, b4, b5, b6⟩ := hb n hn
    exact (skip_or_iff xl yl zl NX NY NZ xs ys zs n _ b1 b2 b3 b4 b5 b6).mpr (H n hn)

theorem isMaxAt_iff (halo : ℤ → ℤ → ℤ → ℚ) (xl yl zl NX NY NZ xs ys zs i j k : ℤ)
    (hi1 : 1 ≤ i) (hi2 : i ≤ xl) (hj1 : 1 ≤ j) (hj2 : j ≤ yl)
    (hk1 : 1 ≤ k) (hk2 : k ≤ zl) :
    isMaxAt halo xl yl zl NX NY NZ xs ys zs i j k = true ↔
      ∀ n ∈ sixNeighbors i j k, globalInDomain NX NY NZ xs ys zs n →
        halo n.1 n.2.1 n.2.2 < halo i j k := by
  have hb := mem_sixNeighbors_bounds xl yl zl i j k hi1 hi2 hj1 hj2 hk1 hk2
  unfold isMaxAt
  rw [List.all_eq_true]
  constructor
  · intro H n hn
    obtain ⟨b1, b2, b3, b4, b5, b6⟩ := hb n hn
    exact (skip_or_iff xl yl zl NX NY NZ xs ys zs n _ b1 b2 b3 b4 b5 b6).mp (H n hn)
  · intro H n hn
    obtain ⟨b1, b2, b3, b4, b5, b6⟩ := hb n hn
    exact (skip_or_iff xl yl zl NX NY NZ xs ys zs n _ b1 b2 b3 b4 b5 b6).mpr (H n hn)

theorem mem_ownedTriples {xl yl zl : ℕ} {p : ℤ × ℤ × ℤ} :
    p ∈ ownedTriples xl yl zl ↔
      1 ≤ p.1 ∧ p.1 ≤ (xl : ℤ) ∧ 1 ≤ p.2.1 ∧ p.2.1 ≤ (yl : ℤ) ∧
      1 ≤ p.2.2 ∧ p.2.2 ≤ (zl : ℤ) := by
  obtain ⟨a, b, c⟩ := p
  unfold ownedTriples
  simp only [List.mem_flatMap, List.mem_map, List.mem_range]
  constructor
  · rintro ⟨x, hx, y, hy, z, hz, heq⟩
    obtain ⟨w, hw, rfl⟩ : ∃ w, w < zl ∧ z = (w : ℤ) := by simpa using hz
    rw [Prod.mk.injEq, Prod.mk.injEq] at heq
    obtain ⟨e1, e2, e3⟩ := heq
    omega
  · rintro ⟨h1, h2, h3, h4, h5, h6⟩
    refine ⟨(a - 1).toNat, by omega, (b - 1).toNat, by omega, c - 1, ?_, ?_⟩
    · simpa using ⟨(c - 1).toNat, by omega, by omega⟩
    · rw [Prod.mk.injEq, Prod.mk.injEq]
      exact ⟨by omega, by omega, by omega⟩

theorem exists_present_neighbor (NX NY NZ : ℕ) (a b c : ℤ)
    (hNX : 1 ≤ NX) (hNY : 1 ≤ NY) (hNZ : 1 ≤ NZ) (hsize : 2 ≤ NX * NY * NZ)
    (h1 : 1 ≤ a) (h2 : a ≤ (NX : ℤ)) (h3 : 1 ≤ b) (h4 : b ≤ (NY : ℤ))
    (h5 : 1 ≤ c) (h6 : c ≤ (NZ : ℤ)) :
    ∃ n ∈ sixNeighbors a b c,
      globalInDomain (NX : ℤ) (NY : ℤ) (NZ : ℤ) 0 0 0 n ∧
      1 ≤ n.1 ∧ n.1 ≤ (NX : ℤ) ∧ 1 ≤ n.2.1 ∧ n.2.1 ≤ (NY : ℤ) ∧
      1 ≤ n.2.2 ∧ n.2.2 ≤ (NZ : ℤ) := by
  have haxis : 2 ≤ NX ∨ 2 ≤ NY ∨ 2 ≤ NZ := by
    by_contra hc
    push_neg at hc
    obtain ⟨u, v, w⟩ := hc
    have e1 : NX = 1 := by omega
    have e2 : NY = 1 := by omega
    have e3 : NZ = 1 := by omega
    rw [e1, e2, e3] at hsize
    omega
  unfold globalInDomain
  rcases haxis with hax | hax | hax
  · rcases eq_or_lt_of_le h1 with he | he
    · refine ⟨(a + 1, b, c), by simp [sixNeighbors], ?_⟩
      dsimp only
      omega
    · refine ⟨(a - 1, b, c), by simp [sixNeighbors], ?_⟩
      dsimp only
      omega
  · rcases eq_or_lt_of_le h3 with he | he
    · refine ⟨(a, b + 1, c), by simp [sixNeighbors], ?_⟩
      dsimp only
      omega
    · refine ⟨(a, b - 1, c), by simp [sixNeighbors], ?_⟩
      dsimp only
      omega
  · rcases eq_or_lt_of_le h5 with he | he
    · refine ⟨(a, b, c + 1), by simp [sixNeighbors], ?_⟩
      dsimp only
      omega
    · refine ⟨(a, b, c - 1), by simp [sixNeighbors], ?_⟩
      dsimp only
      omega

end Sainikhil

namespace Pankaj2

theorem checkLocalMinima_iff (data : ℤ → ℚ) (x y z width height depth : ℤ)
    (hx1 : 0 ≤ x) (hx2 : x < width) (hy1 : 0 ≤ y) (hy2 : y < height)
    (hz1 : 0 ≤ z) (hz2 : z < depth) :
    checkLocalMinima data x y z width height depth = true ↔
      ∀ n ∈ sixNeighbors x y z, inLocalBounds width height depth n →
        ¬ (data (threeD_To_oneD n.1 n.2.1 n.2.2 width height depth) <
           data (threeD_To_oneD x y z width height depth)) := by
  unfold checkLocalMinima
  simp only [sixNeighbors, List.mem_cons, List.not_mem_nil, or_false,
    Bool.and_eq_true, Bool.not_eq_true', Bool.and_eq_false_iff,
    decide_eq_false_iff_not, not_lt, forall_eq_or_imp, forall_eq,
    inLocalBounds, decide_eq_true_iff]
  constructor
  · rintro ⟨⟨⟨⟨⟨c1, c2⟩, c3⟩, c4⟩, c5⟩, c6⟩
    refine ⟨?_, ?_, ?_, ?_, ?_, ?_⟩ <;> dsimp only <;> intro hb
    · rcases c1 with h | h
      · exfalso; omega
      · have : threeD_To_oneD (x - 1) y z width height depth =
          threeD_To_oneD x y z width height depth - 1 := by
          unfold threeD_To_oneD; ring
        rw [this]; exact h
    · rcases c2 with h | h
      · exfalso; omega
      · have : threeD_To_oneD (x + 1) y z width height depth =
          threeD_To_oneD x y z width height depth + 1 := by
          unfold threeD_To_oneD; ring
        rw [this]; exact h
    · rcases c3 with h | h
      · exfalso; omega
      · have : threeD_To_oneD x (y - 1) z width height depth =
          threeD_To_oneD x y z width height depth - width := by
          unfold threeD_To_oneD; ring
        rw [this]; exact h
    · rcases c4 with h | h
      · exfalso; omega
      · have : threeD_To_oneD x (y + 1) z width height depth =
          threeD_To_oneD x y z width height depth + width := by
          unfold threeD_To_oneD; ring
        rw [this]; exact h
    · rcases c5 with h | h
      · exfalso; omega
      · have : threeD_To_oneD x y (z - 1) width height depth =
          threeD_To_oneD x y z width height depth - height * width := by
          unfold threeD_To_oneD; ring
        rw [this]; exact h
    · rcases c6 with h | h
      · exfalso; omega
      · have : threeD_To_oneD x y (z + 1) width height depth =
          threeD_To_oneD x y z width height depth + height * width := by
          unfold threeD_To_oneD; ring
        rw [this]; exact h
  · rintro ⟨c1, c2, c3, c4, c5, c6⟩
    refine ⟨⟨⟨⟨⟨?_, ?_⟩, ?_⟩, ?_⟩, ?_⟩, ?_⟩
    · by_cases hg : 0 < x
      · right
        have he : threeD_To_oneD x y z width height depth - 1 =
            threeD_To_oneD (x - 1) y z width height depth := by
          unfold threeD_To_oneD; ring
        rw [he]; exact c1 ⟨by omega, by omega, by omega, by omega, by omega, by omega⟩
      · left; omega
    · by_cases hg : x < width - 1
      · right
        have he : threeD_To_oneD x y z width height depth + 1 =
            threeD_To_oneD (x + 1) y z width height depth := by
          unfold threeD_To_oneD; ring
        rw [he]; exact c2 ⟨by omega, by omega, by omega, by omega, by omega, by omega⟩
      · left; omega
    · by_cases hg : 0 < y
      · right
        have he : threeD_To_oneD x y z width height depth - width =
            threeD_To_oneD x (y - 1) z width height depth := by
          unfold threeD_To_oneD; ring
        rw [he]; exact c3 ⟨by omega, by omega, by omega, by omega, by omega, by omega⟩
      · left; omega
    · by_cases hg : y < height - 1
      · right
        have he : threeD_To_oneD x y z width height depth + width =
            threeD_To_oneD x (y + 1) z width height depth := by
          unfold threeD_To_oneD; ring
        rw [he]; exact c4 ⟨by omega, by omega, by omega, by omega, by omega, by omega⟩
      · left; omega
    · by_cases hg : 0 < z
      · right
        have he : threeD_To_oneD x y z width height depth - height * width =
            threeD_To_oneD x y (z - 1) width height depth := by
          unfold threeD_To_oneD; ring
        rw [he]; exact c5 ⟨by omega, by omega, by omega, by omega, by omega, by omega⟩
      · left; omega
    · by_cases hg : z < depth - 1
      · right
        have he : threeD_To_oneD x y z width height depth + height * width =
            threeD_To_oneD x y (z + 1) width height depth := by
          unfold threeD_To_oneD; ring
        rw [he]; exact c6 ⟨by omega, by omega, by omega, by omega, by omega, by omega⟩
      · left; omega

theorem checkLocalMaxima_iff (data : ℤ → ℚ) (x y z width height depth : ℤ)
    (hx1 : 0 ≤ x) (hx2 : x < width) (hy1 : 0 ≤ y) (hy2 : y < height)
    (hz1 : 0 ≤ z) (hz2 : z < depth) :
    checkLocalMaxima data x y z width height depth = true ↔
      ∀ n ∈ sixNeighbors x y z, inLocalBounds width height depth n →
        ¬ (data (threeD_To_oneD x y z width height depth) <
           data (threeD_To_oneD n.1 n.2.1 n.2.2 width height depth)) := by
  unfold checkLocalMaxima
  simp only [sixNeighbors, List.mem_cons, List.not_mem_nil, or_false,
    Bool.and_eq_true, Bool.not_eq_true', Bool.and_eq_false_iff,
    decide_eq_false_iff_not, not_lt, forall_eq_or_imp, forall_eq,
    inLocalBounds, decide_eq_true_iff]
  constructor
  · rintro ⟨⟨⟨⟨⟨c1, c2⟩, c3⟩, c4⟩, c5⟩, c6⟩
    refine ⟨?_, ?_, ?_, ?_, ?_, ?_⟩ <;> dsimp only <;> intro hb
    · rcases c1 with h | h
      · exfalso; omega
      · have : threeD_To_oneD (x - 1) y z width height depth =
          threeD_To_oneD x y z width height depth - 1 := by
          unfold threeD_To_oneD; ring
        rw [this]; exact h
    · rcases c2 with h | h
      · exfalso; omega
      · have : threeD_To_oneD (x + 1) y z width height depth =
          threeD_To_oneD x y z width height depth + 1 := by
          unfold threeD_To_oneD; ring
        rw [this]; exact h
    · rcases c3 with h | h
      · exfalso; omega
      · have : threeD_To_oneD x (y - 1) z width height depth =
          threeD_To_oneD x y z width height depth - width := by
          unfold threeD_To_oneD; ring
        rw [this]; exact h
    · rcases c4 with h | h
      · exfalso; omega
      · have : threeD_To_oneD x (y + 1) z width height depth =
          threeD_To_oneD x y z width height depth + width := by
          unfold threeD_To_oneD; ring
        rw [this]; exact h
    · rcases c5 with h | h
      · exfalso; omega
      · have : threeD_To_oneD x y (z - 1) width height depth =
          threeD_To_oneD x y z width height depth - height * width := by
          unfold threeD_To_oneD; ring
        rw [this]; exact h
    · rcases c6 with h | h
      · exfalso; omega
      · have : threeD_To_oneD x y (z + 1) width height depth =
          threeD_To_oneD x y z width height depth + height * width := by
          unfold threeD_To_oneD; ring
        rw [this]; exact h
  · rintro ⟨c1, c2, c3, c4, c5, c6⟩
    refine ⟨⟨⟨⟨⟨?_, ?_⟩, ?_⟩, ?_⟩, ?_⟩, ?_⟩
    · by_cases hg : 0 < x
      · right
        have he : threeD_To_oneD x y z width height depth - 1 =
            threeD_To_oneD (x - 1) y z width height depth := by
          unfold threeD_To_oneD; ring
        rw [he]; exact c1 ⟨by omega, by omega, by omega, by omega, by omega, by omega⟩
      · left; omega
    · by_cases hg : x < width - 1
      · right
        have he : threeD_To_oneD x y z width height depth + 1 =
            threeD_To_oneD (x + 1) y z width height depth := by
          unfold threeD_To_oneD; ring
        rw [he]; exact c2 ⟨by omega, by omega, by omega, by omega, by omega, by omega⟩
      · left; omega
    · by_cases hg : 0 < y
      · right
        have he : threeD_To_oneD x y z width height depth - width =
            threeD_To_oneD x (y - 1) z width height depth := by
          unfold threeD_To_oneD; ring
        rw [he]; exact c3 ⟨by omega, by omega, by omega, by omega, by omega, by omega⟩
      · left; omega
    · by_cases hg : y < height - 1
      · right
        have he : threeD_To_oneD x y z width height depth + width =
            threeD_To_oneD x (y + 1) z width height depth := by
          unfold threeD_To_oneD; ring
        rw [he]; exact c4 ⟨by omega, by omega, by omega, by omega, by omega, by omega⟩
      · left; omega
    · by_cases hg : 0 < z
      · right
        have he : threeD_To_oneD x y z width height depth - height * width =
            threeD_To_oneD x y (z - 1) width height depth := by
          unfold threeD_To_oneD; ring
        rw [he]; exact c5 ⟨by omega, by omega, by omega, by omega, by omega, by omega⟩
      · left; omega
    · by_cases hg : z < depth - 1
      · right
        have he : threeD_To_oneD x y z width height depth + height * width =
            threeD_To_oneD x y (z + 1) width height depth := by
          unfold threeD_To_oneD; ring
        rw [he]; exact c6 ⟨by omega, by omega, by omega, by omega, by omega, by omega⟩
      · left; omega

end Pankaj2

theorem le_foldl_max (xs : List ℚ) (a : ℚ) :
    a ≤ xs.foldl max a ∧ ∀ x ∈ xs, x ≤ xs.foldl max a := by
  induction xs generalizing a with
  | nil => simp
  | cons y ys ih =>
      simp only [List.foldl_cons]
      refine ⟨le_trans (le_max_left a y) (ih (max a y)).1, ?_⟩
      intro x hx
      rcases List.mem_cons.mp hx with rfl | hx'
      · exact le_trans (le_max_right a x) (ih (max a x)).1
      · exact (ih (max a y)).2 x hx'

theorem le_mpiReduceMax (l : List ℚ) (x : ℚ) (hx : x ∈ l) :
    x ≤ mpiReduceMax l := by
  cases l with
  | nil => cases hx
  | cons y ys =>
      rcases List.mem_cons.mp hx with rfl | hx'
      · exact (le_foldl_max ys x).1
      · exact (le_foldl_max ys y).2 x hx'

/-- C1, counterexample: on the flat 2×1×1 local array `data = (5, 5)`,
`checkLocalMinima` of `pankaj_code2.c` classifies the point `(0,0,0)` as a
local minimum although its present neighbour `(1,0,0)` ties with it — the
claim's strict rule (`value(p) < value(n)` for every present neighbour,
ties disqualify) is violated by the code. -/
theorem C1_counterexample :
    Pankaj2.checkLocalMinima (fun _ => (5 : ℚ)) 0 0 0 2 1 1 = true ∧
    (1, 0, 0) ∈ sixNeighbors 0 0 0 ∧
    Pankaj2.inLocalBounds 2 1 1 (1, 0, 0) ∧
    ¬ ((fun _ => (5 : ℚ)) (Pankaj2.threeD_To_oneD 0 0 0 2 1 1) <
       (fun _ => (5 : ℚ)) (Pankaj2.threeD_To_oneD 1 0 0 2 1 1)) := by
  refine ⟨by decide, by decide, ?_, by decide⟩
  unfold Pankaj2.inLocalBounds
  decide

/-- C1 (amended): the detector of `src.c` classifies an owned point as a
local minimum iff its value is strictly below the halo value of every
neighbour whose global position is inside the domain (ties disqualify), and
symmetrically for maxima — exactly as the claim states; the detector of
`pankaj_code2.c` (`checkLocalMinima`/`checkLocalMaxima`) instead classifies
a point as a minimum/maximum iff no in-bounds neighbour is strictly
smaller/greater, so a tie with a present neighbour does not disqualify
there.  Out-of-domain neighbour positions are skipped by both, never
compared. -/
theorem C1_detector_rules :
    (∀ (halo : ℤ → ℤ → ℤ → ℚ) (xl yl zl NX NY NZ xs ys zs i j k : ℤ),
      1 ≤ i → i ≤ xl → 1 ≤ j → j ≤ yl → 1 ≤ k → k ≤ zl →
      (Sainikhil.isMinAt halo xl yl zl NX NY NZ xs ys zs i j k = true ↔
        ∀ n ∈ sixNeighbors i j k, Sainikhil.globalInDomain NX NY NZ xs ys zs n →
          halo i j k < halo n.1 n.2.1 n.2.2)) ∧
    (∀ (halo : ℤ → ℤ → ℤ → ℚ) (xl yl zl NX NY NZ xs ys zs i j k : ℤ),
      1 ≤ i → i ≤ xl → 1 ≤ j → j ≤ yl → 1 ≤ k → k ≤ zl →
      (Sainikhil.isMaxAt halo xl yl zl NX NY NZ xs ys zs i j k = true ↔
        ∀ n ∈ sixNeighbors i j k, Sainikhil.globalInDomain NX NY NZ xs ys zs n →
          halo n.1 n.2.1 n.2.2 < halo i j k)) ∧
    (∀ (data : ℤ → ℚ) (x y z width height depth : ℤ),
      0 ≤ x → x < width → 0 ≤ y → y < height → 0 ≤ z → z < depth →
      (Pankaj2.checkLocalMinima data x y z width height depth = true ↔
        ∀ n ∈ sixNeighbors x y z, Pankaj2.inLocalBounds width height depth n →
          ¬ (data (Pankaj2.threeD_To_oneD n.1 n.2.1 n.2.2 width height depth) <
             data (Pankaj2.threeD_To_oneD x y z width height depth)))) ∧
    (∀ (data : ℤ → ℚ) (x y z width height depth : ℤ),
      0 ≤ x → x < width → 0 ≤ y → y < height → 0 ≤ z → z < depth →
      (Pankaj2.checkLocalMaxima data x y z width height depth = true ↔
        ∀ n ∈ sixNeighbors x y z, Pankaj2.inLocalBounds width height depth n →
          ¬ (data (Pankaj2.threeD_To_oneD x y z width height depth) <
             data (Pankaj2.threeD_To_oneD n.1 n.2.1 n.2.2 width height depth)))) :=
  ⟨fun halo xl yl zl NX NY NZ xs ys zs i j k h1 h2 h3 h4 h5 h6 =>
      Sainikhil.isMinAt_iff halo xl yl zl NX NY NZ xs ys zs i j k h1 h2 h3 h4 h5 h6,
   fun halo xl yl zl NX NY NZ xs ys zs i j k h1 h2 h3 h4 h5 h6 =>
      Sainikhil.isMaxAt_iff halo xl yl zl NX NY NZ xs ys zs i j k h1 h2 h3 h4 h5 h6,
   fun data x y z w h d h1 h2 h3 h4 h5 h6 =>
      Pankaj2.checkLocalMinima_iff data x y z w h d h1 h2 h3 h4 h5 h6,
   fun data x y z w h d h1 h2 h3 h4 h5 h6 =>
      Pankaj2.checkLocalMaxima_iff data x y z w h d h1 h2 h3 h4 h5 h6⟩

/-- Witness for `C1_detector_rules` at a concrete 1×1×1 worker block with
constant data, discharging the ownership-bounds hypotheses. -/
theorem C1_detector_rules_witness :
    ((1 : ℤ) ≤ 1 ∧ (0 : ℤ) ≤ 0 ∧ (0 : ℤ) < 1) ∧
    (Sainikhil.isMinAt (fun _ _ _ => (0 : ℚ)) 1 1 1 1 1 1 0 0 0 1 1 1 = true ↔
      ∀ n ∈ sixNeighbors 1 1 1, Sainikhil.globalInDomain 1 1 1 0 0 0 n →
        (fun _ _ _ => (0 : ℚ)) 1 1 1 < (fun _ _ _ => (0 : ℚ)) n.1 n.2.1 n.2.2) ∧
    (Sainikhil.isMaxAt (fun _ _ _ => (0 : ℚ)) 1 1 1 1 1 1 0 0 0 1 1 1 = true ↔
      ∀ n ∈ sixNeighbors 1 1 1, Sainikhil.globalInDomain 1 1 1 0 0 0 n →
        (fun _ _ _ => (0 : ℚ)) n.1 n.2.1 n.2.2 < (fun _ _ _ => (0 : ℚ)) 1 1 1) ∧
    (Pankaj2.checkLocalMinima (fun _ => (0 : ℚ)) 0 0 0 1 1 1 = true ↔
      ∀ n ∈ sixNeighbors 0 0 0, Pankaj2.inLocalBounds 1 1 1 n →
        ¬ ((fun _ => (0 : ℚ)) (Pankaj2.threeD_To_oneD n.1 n.2.1 n.2.2 1 1 1) <
           (fun _ => (0 : ℚ)) (Pankaj2.threeD_To_oneD 0 0 0 1 1 1))) ∧
    (Pankaj2.checkLocalMaxima (fun _ => (0 : ℚ)) 0 0 0 1 1 1 = true ↔
      ∀ n ∈ sixNeighbors 0 0 0, Pankaj2.inLocalBounds 1 1 1 n →
        ¬ ((fun _ => (0 : ℚ)) (Pankaj2.threeD_To_oneD 0 0 0 1 1 1) <
           (fun _ => (0 : ℚ)) (Pankaj2.threeD_To_oneD n.1 n.2.1 n.2.2 1 1 1))) :=
  ⟨⟨by decide, by decide, by decide⟩,
   C1_detector_rules.1 (fun _ _ _ => (0 : ℚ)) 1 1 1 1 1 1 0 0 0 1 1 1
     (by decide) (by decide) (by decide) (by decide) (by decide) (by decide),
   C1_detector_rules.2.1 (fun _ _ _ => (0 : ℚ)) 1 1 1 1 1 1 0 0 0 1 1 1
     (by decide) (by decide) (by decide) (by decide) (by decide) (by decide),
   C1_detector_rules.2.2.1 (fun _ => (0 : ℚ)) 0 0 0 1 1 1
     (by decide) (by decide) (by decide) (by decide) (by decide) (by decide),
   C1_detector_rules.2.2.2 (fun _ => (0 : ℚ)) 0 0 0 1 1 1
     (by decide) (by decide) (by decide) (by decide) (by decide) (by decide)⟩

/-- C2, evaluation at the failing input (the spec's own two-worker
scenario: 4×1×1 domain split `PX = 2`, one timestep, field `(5, 1, 1, 9)`):
after `1.c`'s distribution phase — and `1.c`'s halo-exchange phase is only
a comment, so this is also the state when classification begins — worker
0's +x ghost cell `(3, 1, 1)` still holds the initialisation value
`DBL_MAX`, not its live neighbour's adjacent boundary value `1`. -/
theorem C2_ghost_not_exchanged :
    Venkatesh.localDataAfterDist
      (fun i => if i = 0 then (5 : ℚ) else if i = 1 then 1 else
        if i = 2 then 1 else 9) 4 1 1 0 0 0 2 1 1 3 1 1 0 = dblMax ∧
    (fun i => if i = 0 then (5 : ℚ) else if i = 1 then 1 else
      if i = 2 then 1 else 9) (Venkatesh.idx3d 2 0 0 4 1 * 1 + 0) = 1 ∧
    dblMax ≠ 1 :=
  ⟨by decide, by decide, by decide⟩

/-- C3, evaluation at the failing input: 2×1×1 domain, 2 timesteps,
`PX = 2`; worker 1's block is the single point `x = 1` with time series
`(2, 3)` in the global field `g i = i`.  The packed buffer holds both
values, but the send and receive counts are `subDomainSize = 1` (not
`subDomainSize * timeSteps = 2`), so the delivered `localData` holds only
the `t = 0` value and the `t = 1` slot keeps whatever was in the
uninitialised allocation (here `0`): re-gathering the blocks cannot
reproduce the original field. -/
theorem C3_truncated_transfer :
    Pankaj.packBlock (fun i => (i : ℚ)) 2 1 1 0 0 1 1 1 2 = [2, 3] ∧
    Pankaj.sendCount 1 1 1 = 1 ∧
    (Pankaj.packBlock (fun i => (i : ℚ)) 2 1 1 0 0 1 1 1 2).length = 2 ∧
    Pankaj.receivedLocalData (fun i => (i : ℚ)) 2 1 1 0 0 1 1 1 2
      (fun _ => 0) 1 = 0 ∧
    (0 : ℚ) ≠ 3 :=
  ⟨by decide, rfl, by decide, by decide, by decide⟩

/-- C4: for every `(axisExtent, numWorkers)` with `axisExtent ≥ numWorkers > 0`,
the ranges produced by `get_range` in `src.c` (here through its components
`rangeStart`/`rangeSize`, with the half-open reading `[start, start + size)`)
are non-empty, contiguous, pairwise disjoint, and their union is exactly
`[0, axisExtent)`. -/
theorem get_range_partition (W E : ℕ) (hW : 0 < W) (hE : W ≤ E) :
    (∀ i, i < W → 1 ≤ Sainikhil.rangeSize i W E) ∧
    Sainikhil.rangeStart 0 W E = 0 ∧
    (∀ i, Sainikhil.rangeStart (i + 1) W E =
      Sainikhil.rangeStart i W E + Sainikhil.rangeSize i W E) ∧
    (∀ x, x < E ↔ ∃ i, i < W ∧ Sainikhil.rangeStart i W E ≤ x ∧
      x < Sainikhil.rangeStart i W E + Sainikhil.rangeSize i W E) ∧
    (∀ i j x, i < W → j < W → i ≠ j →
      Sainikhil.rangeStart i W E ≤ x →
      x < Sainikhil.rangeStart i W E + Sainikhil.rangeSize i W E →
      Sainikhil.rangeStart j W E ≤ x →
      x < Sainikhil.rangeStart j W E + Sainikhil.rangeSize j W E → False) := by
  have hcontig : ∀ i, Sainikhil.rangeStart (i + 1) W E =
      Sainikhil.rangeStart i W E + Sainikhil.rangeSize i W E :=
    fun i => Sainikhil.rangeStart_succ i W E
  have htotal : Sainikhil.rangeStart W W E = E := Sainikhil.rangeStart_total W E hW
  refine ⟨fun i _ => Sainikhil.rangeSize_pos i W E hW hE, rfl, hcontig, ?_, ?_⟩
  · intro x
    constructor
    · intro hx
      rw [← htotal] at hx
      obtain ⟨i, hi, h1, h2⟩ := Sainikhil.rangeStart_locate W E W x hx
      exact ⟨i, hi, h1, by rwa [hcontig i] at h2⟩
    · rintro ⟨i, hi, _, h2⟩
      rw [← hcontig i] at h2
      calc x < Sainikhil.rangeStart (i + 1) W E := h2
        _ ≤ Sainikhil.rangeStart W W E := Sainikhil.rangeStart_mono W E hi
        _ = E := htotal
  · intro i j x _ hj hne hi1 hi2 hj1 hj2
    rcases Nat.lt_or_ge i j with h | h
    · have : Sainikhil.rangeStart (i + 1) W E ≤ Sainikhil.rangeStart j W E :=
        Sainikhil.rangeStart_mono W E h
      rw [hcontig i] at this
      omega
    · have hji : j < i := Nat.lt_of_le_of_ne h (fun e => hne e.symm)
      have : Sainikhil.rangeStart (j + 1) W E ≤ Sainikhil.rangeStart i W E :=
        Sainikhil.rangeStart_mono W E hji
      rw [hcontig j] at this
      omega

/-- Witness for `get_range_partition` at `numWorkers = 2`, `axisExtent = 5`:
the two ranges are `[0, 3)` and `[3, 5)`. -/
theorem get_range_partition_witness :
    0 < 2 ∧ 2 ≤ 5 ∧
    ((∀ i, i < 2 → 1 ≤ Sainikhil.rangeSize i 2 5) ∧
     Sainikhil.rangeStart 0 2 5 = 0 ∧
     (∀ i, Sainikhil.rangeStart (i + 1) 2 5 =
       Sainikhil.rangeStart i 2 5 + Sainikhil.rangeSize i 2 5) ∧
     (∀ x, x < 5 ↔ ∃ i, i < 2 ∧ Sainikhil.rangeStart i 2 5 ≤ x ∧
       x < Sainikhil.rangeStart i 2 5 + Sainikhil.rangeSize i 2 5) ∧
     (∀ i j x, i < 2 → j < 2 → i ≠ j →
       Sainikhil.rangeStart i 2 5 ≤ x →
       x < Sainikhil.rangeStart i 2 5 + Sainikhil.rangeSize i 2 5 →
       Sainikhil.rangeStart j 2 5 ≤ x →
       x < Sainikhil.rangeStart j 2 5 + Sainikhil.rangeSize j 2 5 → False)) :=
  ⟨by decide, by decide, get_range_partition 2 5 (by decide) (by decide)⟩

/-- C5, evaluation at the failing input: a 2×1×1 sub-domain with 2
timesteps, `localData` packed point-major/time-minor as `(5, 1, 9, 0)`
(point 0 has series `(5, 1)`, point 1 has `(9, 0)`).  The code's running
minimum for `t = 0` is `1`, because it reads `localData[pointIndex + t]`
(stride 1) and so mixes timesteps, while the minimum of `value(p, 0)` over
the points is `5`. -/
theorem C5_min_wrong_stride :
    Pankaj.subDomainMinAt (fun i => [(5 : ℚ), 1, 9, 0].getD i 0) 2 1 1 0 = 1 ∧
    Pankaj.specMinOverPointsAt (fun i => [(5 : ℚ), 1, 9, 0].getD i 0)
      2 1 1 2 0 = 5 ∧
    (1 : ℚ) ≠ 5 :=
  ⟨by decide, by decide, by decide⟩

/-- C6, counterexample: on the flat 2×1×1 domain with every value `5`
(single worker, so the local array is the whole domain), the per-timestep
scan of `pankaj_code2.c` reports `localMinimaCount = 2`, not `0`: its
`checkLocalMinima` does not let a tie disqualify, so every point of a flat
field is counted. -/
theorem C6_counterexample :
    (Pankaj2.scanAtTimestep (fun _ => (5 : ℚ)) 0 0 0 1 0 0 0 0 0 1 0 0 0).1 = 2 ∧
    (Pankaj2.scanAtTimestep (fun _ => (5 : ℚ)) 0 0 0 1 0 0 0 0 0 1 0 0 0).1 ≠ 0 :=
  ⟨by decide, by decide⟩

/-- C6 (amended): under the strict detector of `src.c`, a flat field (every
owned halo cell equal to the constant `c`) on a single-worker domain with at
least two points yields `cnt_min = cnt_max = 0` — every point has at least
one present neighbour and the tie defeats the strict test.  (The degenerate
1×1×1 domain yields counts `1`, and the non-strict detector of
`pankaj_code2.c` counts every point of a flat field, per the
counterexample.) -/
theorem C6_flat_field_zero_counts (NX NY NZ : ℕ) (c : ℚ)
    (halo : ℤ → ℤ → ℤ → ℚ)
    (hNX : 1 ≤ NX) (hNY : 1 ≤ NY) (hNZ : 1 ≤ NZ) (hsize : 2 ≤ NX * NY * NZ)
    (hflat : ∀ i j k : ℤ, 1 ≤ i → i ≤ (NX : ℤ) → 1 ≤ j → j ≤ (NY : ℤ) →
      1 ≤ k → k ≤ (NZ : ℤ) → halo i j k = c) :
    Sainikhil.cntMin halo NX NY NZ (NX : ℤ) (NY : ℤ) (NZ : ℤ) 0 0 0 = 0 ∧
    Sainikhil.cntMax halo NX NY NZ (NX : ℤ) (NY : ℤ) (NZ : ℤ) 0 0 0 = 0 := by
  constructor
  · unfold Sainikhil.cntMin
    rw [List.countP_eq_zero]
    intro p hp
    rw [Sainikhil.mem_ownedTriples] at hp
    obtain ⟨b1, b2, b3, b4, b5, b6⟩ := hp
    rw [Sainikhil.isMinAt_iff halo _ _ _ _ _ _ _ _ _ p.1 p.2.1 p.2.2
      b1 b2 b3 b4 b5 b6]
    intro H
    obtain ⟨n, hn, hdom, nb1, nb2, nb3, nb4, nb5, nb6⟩ :=
      Sainikhil.exists_present_neighbor NX NY NZ p.1 p.2.1 p.2.2
        hNX hNY hNZ hsize b1 b2 b3 b4 b5 b6
    have hlt := H n hn hdom
    rw [hflat p.1 p.2.1 p.2.2 b1 b2 b3 b4 b5 b6,
        hflat n.1 n.2.1 n.2.2 nb1 nb2 nb3 nb4 nb5 nb6] at hlt
    exact lt_irrefl c hlt
  · unfold Sainikhil.cntMax
    rw [List.countP_eq_zero]
    intro p hp
    rw [Sainikhil.mem_ownedTriples] at hp
    obtain ⟨b1, b2, b3, b4, b5, b6⟩ := hp
    rw [Sainikhil.isMaxAt_iff halo _ _ _ _ _ _ _ _ _ p.1 p.2.1 p.2.2
      b1 b2 b3 b4 b5 b6]
    intro H
    obtain ⟨n, hn, hdom, nb1, nb2, nb3, nb4, nb5, nb6⟩ :=
      Sainikhil.exists_present_neighbor NX NY NZ p.1 p.2.1 p.2.2
        hNX hNY hNZ hsize b1 b2 b3 b4 b5 b6
    have hlt := H n hn hdom
    rw [hflat p.1 p.2.1 p.2.2 b1 b2 b3 b4 b5 b6,
        hflat n.1 n.2.1 n.2.2 nb1 nb2 nb3 nb4 nb5 nb6] at hlt
    exact lt_irrefl c hlt

/-- Witness for `C6_flat_field_zero_counts` on the flat 2×1×1 domain with
constant value `0`. -/
theorem C6_flat_field_zero_counts_witness :
    (1 ≤ 2 ∧ 1 ≤ 1 ∧ 2 ≤ 2 * 1 * 1) ∧
    (∀ i j k : ℤ, 1 ≤ i → i ≤ (2 : ℤ) → 1 ≤ j → j ≤ (1 : ℤ) →
      1 ≤ k → k ≤ (1 : ℤ) → (fun _ _ _ => (0 : ℚ)) i j k = 0) ∧
    (Sainikhil.cntMin (fun _ _ _ => (0 : ℚ)) 2 1 1 2 1 1 0 0 0 = 0 ∧
     Sainikhil.cntMax (fun _ _ _ => (0 : ℚ)) 2 1 1 2 1 1 0 0 0 = 0) :=
  ⟨⟨by decide, by decide, by decide⟩,
   fun _ _ _ _ _ _ _ _ _ => rfl,
   C6_flat_field_zero_counts 2 1 1 0 (fun _ _ _ => (0 : ℚ))
     (by decide) (by decide) (by decide) (by decide)
     (fun _ _ _ _ _ _ _ _ _ => rfl)⟩

/-- C7, counterexample: `src.c` performs no timing reduction — it prints a
constant `0.0` for the read time and rank 0's own `main_time` for the other
two figures.  With per-rank compute measurements `(1, 2)`, the reported
compute time is `1`, which is not `≥` worker 1's measurement `2`. -/
theorem C7_counterexample :
    Sainikhil.reportedTimings [1, 2] = (0, 1, 1) ∧
    (2 : ℚ) ∈ [(1 : ℚ), 2] ∧
    ¬ ((2 : ℚ) ≤ (Sainikhil.reportedTimings [1, 2]).2.1) :=
  ⟨by decide, by decide, by decide⟩

/-- C7 (amended): in `1.c` (and likewise both pankaj codes) each of the
three delivered timings is an `MPI_MAX` reduction across workers, hence at
least every individual worker's measurement of that interval; `src.c`
reports `0.0` and the coordinating worker's own compute interval instead,
which can be smaller than another worker's measurement (see the
counterexample). -/
theorem C7_reported_timings_max (r c tt : List ℚ) :
    (∀ x ∈ r, x ≤ (Venkatesh.reportedTimings r c tt).1) ∧
    (∀ x ∈ c, x ≤ (Venkatesh.reportedTimings r c tt).2.1) ∧
    (∀ x ∈ tt, x ≤ (Venkatesh.reportedTimings r c tt).2.2) :=
  ⟨fun x hx => le_mpiReduceMax r x hx, fun x hx => le_mpiReduceMax c x hx,
   fun x hx => le_mpiReduceMax tt x hx⟩

/-- Witness for `C7_reported_timings_max` at concrete measurement lists. -/
theorem C7_reported_timings_max_witness :
    ((2 : ℚ) ∈ [(1 : ℚ), 2] ∧ 2 ≤ (Venkatesh.reportedTimings [1, 2] [3] [4]).1) ∧
    ((3 : ℚ) ∈ [(3 : ℚ)] ∧ 3 ≤ (Venkatesh.reportedTimings [1, 2] [3] [4]).2.1) ∧
    ((4 : ℚ) ∈ [(4 : ℚ)] ∧ 4 ≤ (Venkatesh.reportedTimings [1, 2] [3] [4]).2.2) :=
  ⟨⟨by decide, (C7_reported_timings_max [1, 2] [3] [4]).1 2 (by decide)⟩,
   ⟨by decide, (C7_reported_timings_max [1, 2] [3] [4]).2.1 3 (by decide)⟩,
   ⟨by decide, (C7_reported_timings_max [1, 2] [3] [4]).2.2 4 (by decide)⟩⟩

/-- C8, counterexample: with `PX = 2, PY = PZ = 1`, two workers and
`NX = 1` (`axisExtent < numWorkersAlongAxis`, so worker 1 would own zero
points), the only validation in the code passes (`configError = false`) and
the run proceeds with an empty range for worker 1 — no configuration error
is signalled, contradicting the claim. -/
theorem C8_counterexample :
    Sainikhil.configError 2 1 1 2 = false ∧
    (Sainikhil.get_range 1 2 1).size = 0 :=
  ⟨by decide, by decide⟩

/-- C8 (amended): the run signals a configuration error, before any data
movement, exactly for the process-grid product mismatch
`PX * PY * PZ ≠ size`; non-positive extents and `axisExtent < numWorkers`
are not checked — `get_range` silently yields a zero-size range for the
workers beyond the extent and the run continues. -/
theorem C8_validation :
    (∀ PX PY PZ size : ℤ, Sainikhil.configError PX PY PZ size = true ↔
      PX * PY * PZ ≠ size) ∧
    (∀ E T r : ℕ, E < T → E ≤ r → Sainikhil.rangeSize r T E = 0) := by
  constructor
  · intro PX PY PZ size
    unfold Sainikhil.configError
    exact decide_eq_true_iff
  · intro E T r h1 h2
    unfold Sainikhil.rangeSize
    rw [Nat.div_eq_of_lt h1, Nat.mod_eq_of_lt h1]
    simp [Nat.not_lt.mpr h2]

/-- Witness for `C8_validation`: the mismatch `2·1·1 ≠ 2` iff detected, and
the undetected empty range at `E = 1 < T = 2`, `r = 1`. -/
theorem C8_validation_witness :
    (Sainikhil.configError 2 1 1 2 = true ↔ (2 : ℤ) * 1 * 1 ≠ 2) ∧
    (1 < 2 ∧ 1 ≤ 1 ∧ Sainikhil.rangeSize 1 2 1 = 0) :=
  ⟨C8_validation.1 2 1 1 2,
   by decide, by decide, C8_validation.2 1 2 1 (by decide) (by decide)⟩

/-- C9: in `1.c`'s `is_min` and `is_max` the loop-local declarations of
`nx, ny, nz` shadow the grid-extent parameters, so each bounds guard
compares a coordinate against itself — `nx >= nx` holds for every value —
hence the guard is always true, every one of the six neighbour comparisons
is skipped via `continue` for every input, and both functions return 1 for
every point, timestep and field. -/
theorem C9_shadowed_guards (data : ℤ → ℚ) (x y z nx ny nz t nt : ℤ) :
    Venkatesh.is_min data x y z nx ny nz t nt = true ∧
    Venkatesh.is_max data x y z nx ny nz t nt = true := by
  constructor
  · unfold Venkatesh.is_min
    rw [List.all_eq_true]
    intro n hn
    simp
  · unfold Venkatesh.is_max
    rw [List.all_eq_true]
    intro n hn
    simp

/-- C10: in `pankaj_code2.c`, the per-timestep scan indexes `localData`
without any timestep stride (`val = localData[idx]`, and
`checkLocalMinima`/`checkLocalMaxima` take no `t`), so the per-timestep
results — minima count, maxima count, sub-domain minimum and maximum — are
identical for every pair of timesteps, for every input field. -/
theorem C10_scan_timestep_independent (data : ℤ → ℚ)
    (tsx tsy tsz tex tey tez sx sy sz ex ey ez : ℤ) (t t' : ℕ) :
    Pankaj2.scanAtTimestep data tsx tsy tsz tex tey tez sx sy sz ex ey ez t =
      Pankaj2.scanAtTimestep data tsx tsy tsz tex tey tez sx sy sz ex ey ez t' :=
  rfl
